import Mathlib

set_option maxHeartbeats 1000000

/-- JSON values as fetched from the SDRangel reverse API. Numbers are modelled as
integers: every field this program reads or writes is a frequency in whole Hz, and
the script's arithmetic (int(shift + offset)) is the identity on integral inputs. -/
inductive Json where
  | null : Json
  | bool : Bool → Json
  | num : Int → Json
  | str : String → Json
  | arr : List Json → Json
  | obj : List (String × Json) → Json

/-- Python dict lookup d[k] on a JSON object, modelled on an association list
(first binding wins; real SDRangel documents have unique keys). -/
def getKey (k : String) : List (String × Json) → Option Json
  | [] => none
  | (k', v) :: rest => if k' = k then some v else getKey k rest

/-- Python membership test (k in d) on a JSON object. -/
def hasKey (fs : List (String × Json)) (k : String) : Bool :=
  (getKey k fs).isSome

/-- Python dict assignment d[k] = v: replaces the value of an existing key in place
(keeping key order), appends a new binding otherwise. -/
def setKey : List (String × Json) → String → Json → List (String × Json)
  | [], k, v => [(k, v)]
  | (k', v') :: rest, k, v =>
      if k' = k then (k, v) :: rest else (k', v') :: setKey rest k v

/-- Containment of a list of characters as a contiguous run of another, used to
model Python's substring test (sub in s). -/
def charsIn (needle : List Char) : List Char → Bool
  | [] => needle.isEmpty
  | c :: rest => List.isPrefixOf needle (c :: rest) || charsIn needle rest

/-- Python substring test: sub in s. -/
def strContains (s sub : String) : Bool :=
  charsIn sub.toList s.toList

/-- Python s.endswith(suf). -/
def strEndsWith (s suf : String) : Bool :=
  List.isPrefixOf suf.toList.reverse s.toList.reverse

/-- Lowercasing as used by the script: Python str.lower() on the ASCII key
names of SDRangel documents lowercases character by character. -/
def pyLower (s : String) : String :=
  String.mk (s.toList.map Char.toLower)

/-- Translation of find_channel_settings_key: scan the channel JSON keys for ones
ending in Settings (case-insensitively) whose lowercase form contains the role
substring; prefer the first candidate containing the kind hint when the hint is
truthy; otherwise take the first candidate; otherwise fall back to the first key
ending in Settings; otherwise report not found. The kind hint is an Option so that
Python None (and the empty string, which is also falsy) can be passed. -/
def find_channel_settings_key (channel_json : List (String × Json))
    (role : String) (kind_hint : Option String) : Option String :=
  let role_part := pyLower role
  let candidates := (channel_json.map Prod.fst).filter
    (fun k => strEndsWith (pyLower k) "settings" && strContains (pyLower k) role_part)
  let hinted : Option String :=
    match kind_hint with
    | some h =>
        if h.isEmpty then none
        else candidates.find? (fun k => strContains (pyLower k) (pyLower h))
    | none => none
  match hinted with
  | some k => some k
  | none =>
      match candidates with
      | k :: _ => some k
      | [] => (channel_json.map Prod.fst).find? (fun k => strEndsWith (pyLower k) "settings")

/-- Spec reading of the role/kind settings-block lookup, written from the words of
the specification for comparison with the code translation above: among the keys
ending in Settings (case-insensitive) that match the role, the one containing the
kind hint if any exists, otherwise the first role match, otherwise any key ending
in Settings, otherwise not found. -/
def find_channel_settings_key_spec (channel_json : List (String × Json))
    (role : String) (kind_hint : Option String) : Option String :=
  let settingsKeys := (channel_json.map Prod.fst).filter
    (fun k => strEndsWith (pyLower k) "settings")
  let roleMatches := settingsKeys.filter
    (fun k => strContains (pyLower k) (pyLower role))
  let hintMatch : Option String :=
    match kind_hint with
    | some h =>
        if h.isEmpty then none
        else roleMatches.find? (fun k => strContains (pyLower k) (pyLower h))
    | none => none
  hintMatch <|> roleMatches.head? <|> settingsKeys.head?

mutual
/-- Python structural equality on JSON values, as used by the script's
(current != new) comparisons. Python's bool/int numeric cross-equality is
included; objects are compared binding-by-binding (real documents have a fixed
key order, so this coincides with Python's order-insensitive dict equality on
the values this script compares, which are scalars). -/
def pyEqJson : Json → Json → Bool
  | Json.null, Json.null => true
  | Json.bool a, Json.bool b => a == b
  | Json.bool a, Json.num b => (if a then (1 : Int) else 0) == b
  | Json.num a, Json.bool b => a == (if b then (1 : Int) else 0)
  | Json.num a, Json.num b => a == b
  | Json.str a, Json.str b => a == b
  | Json.arr a, Json.arr b => pyEqList a b
  | Json.obj a, Json.obj b => pyEqFields a b
  | _, _ => false
def pyEqList : List Json → List Json → Bool
  | [], [] => true
  | a :: as', b :: bs' => pyEqJson a b && pyEqList as' bs'
  | _, _ => false
def pyEqFields : List (String × Json) → List (String × Json) → Bool
  | [], [] => true
  | (ka, va) :: as', (kb, vb) :: bs' => ka == kb && pyEqJson va vb && pyEqFields as' bs'
  | _, _ => false
end

/-- Python equality of a JSON value against an int (current != shift_hz). -/
def pyEqInt : Json → Int → Bool
  | Json.num n, i => n == i
  | Json.bool b, i => (if b then (1 : Int) else 0) == i
  | _, _ => false

/-- Python equality of dict.get's result (None when absent) against an int. -/
def pyEqOptInt : Option Json → Int → Bool
  | some j, i => pyEqInt j i
  | none, _ => false

/-- Python equality of two values each of which may be None. -/
def pyEqOpt : Option Json → Option Json → Bool
  | none, none => true
  | some a, some b => pyEqJson a b
  | _, _ => false

/-- One step of a path into a JSON document: an object field or an array index.
The Python code returns an aliased reference to a sub-dictionary; the embedding
makes the alias explicit as the path from the document root to that dictionary. -/
inductive JStep where
  | field (k : String)
  | idx (i : Nat)

mutual
/-- Size of a JSON value, the measure under which the recursive search of
find_center_freq_path terminates. -/
def jsize : Json → Nat
  | Json.obj fs => 1 + fsize fs
  | Json.arr l => 1 + lsize l
  | _ => 1
def fsize : List (String × Json) → Nat
  | [] => 0
  | (_, v) :: rest => 1 + jsize v + fsize rest
def lsize : List Json → Nat
  | [] => 0
  | j :: rest => 1 + jsize j + lsize rest
end

/-- Total size of the JSON values held on the recursive-search stack. -/
def stackSize (stack : List (List JStep × Json)) : Nat :=
  (stack.map (fun pr => jsize pr.2)).sum

/-- Dictionaries that are direct elements of a list value, with their paths, in
list order (the search pushes exactly these for a list-valued field). -/
def arrObjEntries (p : List JStep) (k : String) (i : Nat) :
    List Json → List (List JStep × Json)
  | [] => []
  | Json.obj o :: rest =>
      (p ++ [JStep.field k, JStep.idx i], Json.obj o) :: arrObjEntries p k (i + 1) rest
  | _ :: rest => arrObjEntries p k (i + 1) rest

/-- What the recursive search pushes for one dictionary node: for each value in
order, the value itself when it is a dictionary, and the dictionaries directly
inside it when it is a list. Values of any other shape, and lists inside lists,
are not descended into. -/
def childEntries (p : List JStep) : List (String × Json) → List (List JStep × Json)
  | [] => []
  | (k, Json.obj o) :: rest => (p ++ [JStep.field k], Json.obj o) :: childEntries p rest
  | (k, Json.arr l) :: rest => arrObjEntries p k 0 l ++ childEntries p rest
  | _ :: rest => childEntries p rest

theorem jsize_pos (j : Json) : 0 < jsize j := by
  cases j <;> simp [jsize]

theorem stackSize_cons (p : List JStep) (j : Json) (s : List (List JStep × Json)) :
    stackSize ((p, j) :: s) = jsize j + stackSize s := by
  simp [stackSize]

theorem stackSize_append (a b : List (List JStep × Json)) :
    stackSize (a ++ b) = stackSize a + stackSize b := by
  simp [stackSize]

theorem stackSize_reverse (a : List (List JStep × Json)) :
    stackSize a.reverse = stackSize a := by
  induction a with
  | nil => rfl
  | cons x rest ih =>
      obtain ⟨xp, xj⟩ := x
      rw [List.reverse_cons, stackSize_append, stackSize_cons, ih]
      simp [stackSize]
      omega

theorem stackSize_arrObjEntries_le (l : List Json) :
    ∀ p k i, stackSize (arrObjEntries p k i l) ≤ lsize l := by
  induction l with
  | nil => intro p k i; simp [arrObjEntries, stackSize]
  | cons x rest ih =>
      intro p k i
      cases x <;> simp only [arrObjEntries, stackSize_cons, lsize] <;>
        (have h := ih p k (i + 1); omega)

theorem stackSize_childEntries_le (fs : List (String × Json)) :
    ∀ p, stackSize (childEntries p fs) ≤ fsize fs := by
  induction fs with
  | nil => intro p; simp [childEntries, stackSize, fsize]
  | cons kv rest ih =>
      intro p
      obtain ⟨k, v⟩ := kv
      have h := ih p
      cases v with
      | arr l =>
          have ha := stackSize_arrObjEntries_le l p k 0
          simp only [childEntries, stackSize_append, fsize, jsize]
          omega
      | obj o =>
          simp only [childEntries, stackSize_cons, fsize]
          omega
      | null => simp only [childEntries, fsize]; omega
      | bool b => simp only [childEntries, fsize]; omega
      | num n => simp only [childEntries, fsize]; omega
      | str s => simp only [childEntries, fsize]; omega

/-- Translation of the generic recursive search in find_center_freq_path: a LIFO
stack of pending nodes, kept here top-first (Python pops from the end of its
list, so pushed children are visited last-pushed-first). Returns the first
dictionary popped that directly contains a centerFrequency key, as the container
together with the key name and the container's path from the root. -/
def cfSearch : List (List JStep × Json) → Option (List (String × Json) × String × List JStep)
  | [] => none
  | (p, Json.obj fs) :: rest =>
      if hasKey fs "centerFrequency" then some (fs, "centerFrequency", p)
      else cfSearch ((childEntries p fs).reverse ++ rest)
  | _ :: rest => cfSearch rest
termination_by stack => stackSize stack
decreasing_by
  · rw [stackSize_append, stackSize_reverse, stackSize_cons]
    have h := stackSize_childEntries_le fs p
    simp only [jsize]
    omega
  · rename_i pr
    obtain ⟨a, b⟩ := pr
    rw [stackSize_cons]
    have h := jsize_pos b
    omega

/-- The fixed list of known driver-specific locations checked first: four driver
blocks holding a centerFrequency field, then a top-level centerFrequency. -/
def knownCandidates : List (String × Option String) :=
  [("limeSdrInputSettings", some "centerFrequency"),
   ("limeSdrOutputSettings", some "centerFrequency"),
   ("usrpInputSettings", some "centerFrequency"),
   ("usrpOutputSettings", some "centerFrequency"),
   ("centerFrequency", none)]

/-- The candidate loop of find_center_freq_path: an entry (k, none) is a
top-level key check returning the document itself as container; an entry
(k, some subk) requires the value at k to be a dictionary containing subk and
returns that dictionary. -/
def tryCandidates (dev_data : List (String × Json)) :
    List (String × Option String) → Option (List (String × Json) × String × List JStep)
  | [] => none
  | (k, none) :: rest =>
      if hasKey dev_data k then some (dev_data, k, [])
      else tryCandidates dev_data rest
  | (k, some subk) :: rest =>
      match getKey k dev_data with
      | some (Json.obj o) =>
          if hasKey o subk then some (o, subk, [JStep.field k])
          else tryCandidates dev_data rest
      | _ => tryCandidates dev_data rest

/-- Translation of find_center_freq_path: return the container dictionary and the
key under which the device's centerFrequency is stored (plus the container's path
from the root, standing in for the aliased reference the Python code returns),
checking the known driver-specific locations first and falling back to the
recursive search; none is the explicit absent marker (None, None). -/
def find_center_freq_path (dev_data : List (String × Json)) :
    Option (List (String × Json) × String × List JStep) :=
  match tryCandidates dev_data knownCandidates with
  | some r => some r
  | none => cfSearch [([], Json.obj dev_data)]

/-- The known driver-specific block names of the candidate list. -/
def blockNames : List String :=
  ["limeSdrInputSettings", "limeSdrOutputSettings", "usrpInputSettings", "usrpOutputSettings"]

/-- A known driver block matches when the document stores a dictionary under it
that directly contains a centerFrequency key. -/
def blockMatches (dev_data : List (String × Json)) (b : String) : Bool :=
  match getKey b dev_data with
  | some (Json.obj o) => hasKey o "centerFrequency"
  | _ => false

mutual
/-- A key occurs somewhere in a JSON value, at any depth (including inside lists
of lists, which the recursive search never visits). -/
def containsKeyJ (s : String) : Json → Bool
  | Json.obj fs => hasKey fs s || containsKeyFields s fs
  | Json.arr l => containsKeyElems s l
  | _ => false
def containsKeyFields (s : String) : List (String × Json) → Bool
  | [] => false
  | (_, v) :: rest => containsKeyJ s v || containsKeyFields s rest
def containsKeyElems (s : String) : List Json → Bool
  | [] => false
  | j :: rest => containsKeyJ s j || containsKeyElems s rest
end

/-- The dictionaries of a document that the locator can reach: the document root,
any dictionary value of a reachable dictionary, and any dictionary that is a
direct element of a list value of a reachable dictionary. -/
inductive ReachDict (d : List (String × Json)) : List (String × Json) → Prop where
  | root : ReachDict d d
  | viaField {fs o : List (String × Json)} (k : String) :
      ReachDict d fs → (k, Json.obj o) ∈ fs → ReachDict d o
  | viaArr {fs o : List (String × Json)} {l : List Json} (k : String) :
      ReachDict d fs → (k, Json.arr l) ∈ fs → Json.obj o ∈ l → ReachDict d o

mutual
/-- Overwrite key := v inside the object reached by the given path. This models
the aliased in-place mutation container[key] = value that the Python code
performs before PATCHing the whole document back. -/
def jupdate : Json → List JStep → String → Json → Json
  | Json.obj fs, [], k, v => Json.obj (setKey fs k v)
  | Json.obj fs, JStep.field f :: p, k, v => Json.obj (jupdateField fs f p k v)
  | Json.arr l, JStep.idx i :: p, k, v => Json.arr (jupdateElem l i p k v)
  | j, _, _, _ => j
def jupdateField : List (String × Json) → String → List JStep → String → Json → List (String × Json)
  | [], _, _, _, _ => []
  | (k', v') :: rest, f, p, k, v =>
      if k' = f then (k', jupdate v' p k v) :: rest
      else (k', v') :: jupdateField rest f p k v
def jupdateElem : List Json → Nat → List JStep → String → Json → List Json
  | [], _, _, _, _ => []
  | x :: rest, 0, p, k, v => jupdate x p k v :: rest
  | x :: rest, i + 1, p, k, v => x :: jupdateElem rest i p k v
end

/-- Apply jupdate at the document root (the root is always an object). -/
def jupdateRoot (doc : List (String × Json)) (p : List JStep) (k : String) (v : Json) :
    List (String × Json) :=
  match jupdate (Json.obj doc) p k v with
  | Json.obj fs => fs
  | _ => doc

/-- Python exception classes the script raises or catches. connectionError and
timeoutExc are requests.ConnectionError and requests.Timeout, httpError is
requests.HTTPError, keyError is what the script raises on a schema mismatch
(KeyError), typeError and attributeError are the interpreter's own errors on
ill-shaped documents, and systemExit stands for a BaseException that no except
clause of main_loop matches (everything else derives from Exception). -/
inductive PyExc where
  | connectionError
  | timeoutExc
  | httpError
  | keyError
  | typeError
  | attributeError
  | keyboardInterrupt
  | otherError
  | systemExit
  deriving DecidableEq

/-- The remote documents one iteration reads: Rx channel settings (R0),
Rx device settings (R0), Tx channel settings (T1) and the settings of the
device to align (R1). Fetched fresh each iteration; the top level of every
SDRangel settings document is a JSON object. -/
structure Remote where
  r0Channel : List (String × Json)
  r0Device : List (String × Json)
  t1Channel : List (String × Json)
  r1Device : List (String × Json)

/-- A PATCH issued during one iteration: the full document sent as the request
body, either to the Tx channel settings endpoint or to the alignment-target
device settings endpoint. -/
inductive WriteCall where
  | txChannelWrite (doc : List (String × Json))
  | deviceWrite (doc : List (String × Json))

/-- Whether a write call went to the Tx channel settings endpoint. -/
def isTxWrite : WriteCall → Bool
  | WriteCall.txChannelWrite _ => true
  | WriteCall.deviceWrite _ => false

/-- Python membership test (s in v) against an arbitrary JSON value, as run by
get_rx_ssb_shift when the settings value is not a dictionary: a list compares
its elements for equality, a string tests substring containment, and any other
value raises TypeError. -/
def pyMember (s : String) : Json → Except PyExc Bool
  | Json.obj fs => Except.ok (hasKey fs s)
  | Json.arr l => Except.ok (l.any (fun x => pyEqJson x (Json.str s)))
  | Json.str t => Except.ok (strContains t s)
  | _ => Except.error PyExc.typeError

/-- Translation of get_rx_ssb_shift on an already-fetched Rx channel document:
locate the SSB demodulator settings block and return its inputFrequencyOffset,
raising KeyError when the block or the field is missing. Indexing a non-object
settings value raises the interpreter's TypeError. -/
def get_rx_ssb_shift (data : List (String × Json)) : Except PyExc Json :=
  match find_channel_settings_key data "demod" (some "ssb") with
  | none => Except.error PyExc.keyError
  | some demod_key =>
      match getKey demod_key data with
      | some (Json.obj settings) =>
          match getKey "inputFrequencyOffset" settings with
          | some v => Except.ok v
          | none => Except.error PyExc.keyError
      | some other =>
          match pyMember "inputFrequencyOffset" other with
          | Except.error e => Except.error e
          | Except.ok true => Except.error PyExc.typeError
          | Except.ok false => Except.error PyExc.keyError
      | none => Except.error PyExc.keyError

/-- The applied_shift = int(shift + offset_hz) line of mirror_and_align_once.
Adding a non-numeric JSON value to an int raises TypeError; a Python bool is an
int (True + 500 = 501); on integral inputs int() truncation is the identity,
and the embedding's numbers are integers. -/
def applied_shift (shift : Json) (offset_hz : Int) : Except PyExc Int :=
  match shift with
  | Json.num n => Except.ok (n + offset_hz)
  | Json.bool b => Except.ok ((if b then (1 : Int) else 0) + offset_hz)
  | _ => Except.error PyExc.typeError

/-- Translation of set_tx_ssb_shift_if_changed on an already-fetched Tx channel
document: locate the SSB modulator settings block, compare its current
inputFrequencyOffset (None when absent) to shift_hz, and when they differ
return the whole document with just that field overwritten, to be PATCHed back;
the Bool is the function's changed/unchanged return value. -/
def set_tx_ssb_shift_if_changed (shift_hz : Int) (data : List (String × Json)) :
    Except PyExc (Bool × Option (List (String × Json))) :=
  match find_channel_settings_key data "mod" (some "ssb") with
  | none => Except.error PyExc.keyError
  | some mod_key =>
      match getKey mod_key data with
      | some (Json.obj settings) =>
          if pyEqOptInt (getKey "inputFrequencyOffset" settings) shift_hz then
            Except.ok (false, none)
          else
            Except.ok (true, some (setKey data mod_key
              (Json.obj (setKey settings "inputFrequencyOffset" (Json.num shift_hz)))))
      | some _ => Except.error PyExc.attributeError
      | none => Except.error PyExc.keyError

/-- Translation of set_device_center_frequency_if_changed on an already-fetched
device document: discover where centerFrequency is stored, compare the current
value to the new one (both may be Python None), and when they differ overwrite
the field inside its container and return the whole mutated document to be
PATCHed back. A new value of None would be serialized as JSON null. -/
def set_device_center_frequency_if_changed (new_center_freq : Option Json)
    (dev_data : List (String × Json)) :
    Except PyExc (Bool × Option (List (String × Json))) :=
  match find_center_freq_path dev_data with
  | none => Except.error PyExc.keyError
  | some (container, key, path) =>
      if pyEqOpt (getKey key container) new_center_freq then
        Except.ok (false, none)
      else
        Except.ok (true, some (jupdateRoot dev_data path key
          ((new_center_freq).getD Json.null)))

/-- Translation of mirror_and_align_once over already-fetched documents: read the
Rx shift, compute the applied shift, read the R0 center frequency, write the Tx
shift if changed, then align the R1 center frequency if changed. The first
component collects the PATCH calls issued before the iteration finished or
raised; the second is the outcome. -/
def mirror_and_align_once (r : Remote) (offset_hz : Int) :
    List WriteCall × Except PyExc (Bool × Bool) :=
  match get_rx_ssb_shift r.r0Channel with
  | Except.error e => ([], Except.error e)
  | Except.ok shift =>
      match applied_shift shift offset_hz with
      | Except.error e => ([], Except.error e)
      | Except.ok applied =>
          match find_center_freq_path r.r0Device with
          | none => ([], Except.error PyExc.keyError)
          | some (cont0, key0, _) =>
              match set_tx_ssb_shift_if_changed applied r.t1Channel with
              | Except.error e => ([], Except.error e)
              | Except.ok (tx_changed, txDoc) =>
                  match set_device_center_frequency_if_changed (getKey key0 cont0)
                      r.r1Device with
                  | Except.error e =>
                      ((match txDoc with
                        | some d2 => [WriteCall.txChannelWrite d2]
                        | none => []), Except.error e)
                  | Except.ok (r1_changed, devDoc) =>
                      ((match txDoc with
                        | some d2 => [WriteCall.txChannelWrite d2]
                        | none => []) ++
                       (match devDoc with
                        | some d2 => [WriteCall.deviceWrite d2]
                        | none => []),
                       Except.ok (tx_changed, r1_changed))

/-- What one call of mirror_and_align_once did, as main_loop observes it: it
returned, or it raised a Python exception. -/
inductive IterOutcome where
  | ok
  | raised (e : PyExc)
  deriving DecidableEq

/-- The externally visible events of main_loop: an iteration attempt, the log
line and backoff sleep of each except clause, the inter-iteration sleep, and
the Stopped-by-user message. -/
inductive Event where
  | iterate
  | sleepSync
  | logConnError
  | logHTTPError
  | logOtherError
  | logStopped
  | sleepReconnect
  deriving DecidableEq

/-- How a run of main_loop ended: returned normally (single-shot success),
returned after a KeyboardInterrupt, propagated an uncaught exception out of the
function, or is still looping when the scripted outcomes run out. -/
inductive ExitKind where
  | normalReturn
  | userStop
  | propagated (e : PyExc)
  | stillRunning
  deriving DecidableEq

/-- Which except clause of main_loop handles an exception: the events the
handler emits, and the exit it forces (none means the loop continues).
The clauses in source order: (ConnectionError, Timeout), HTTPError,
KeyboardInterrupt, then the generic Exception catch-all; a BaseException such
as SystemExit matches none of them and propagates. -/
def exceptionEvents : PyExc → List Event × Option ExitKind
  | PyExc.connectionError => ([Event.logConnError, Event.sleepReconnect], none)
  | PyExc.timeoutExc => ([Event.logConnError, Event.sleepReconnect], none)
  | PyExc.httpError => ([Event.logHTTPError, Event.sleepReconnect], none)
  | PyExc.keyboardInterrupt => ([Event.logStopped], some ExitKind.userStop)
  | PyExc.systemExit => ([], some (ExitKind.propagated PyExc.systemExit))
  | _ => ([Event.logOtherError, Event.sleepReconnect], none)

/-- Translation of main_loop: the while-True loop with one try/except per
iteration, driven by a script of scripted outcomes for the successive calls of
mirror_and_align_once. On success the loop returns when once is set and
otherwise sleeps the sync delay and continues; every caught exception logs and
sleeps the reconnect delay and continues, whether or not once is set. -/
def main_loop (once : Bool) : List IterOutcome → List Event × ExitKind
  | [] => ([], ExitKind.stillRunning)
  | IterOutcome.ok :: rest =>
      if once then ([Event.iterate], ExitKind.normalReturn)
      else
        let r := main_loop once rest
        (Event.iterate :: Event.sleepSync :: r.1, r.2)
  | IterOutcome.raised e :: rest =>
      match exceptionEvents e with
      | (evs, some k) => (Event.iterate :: evs, k)
      | (evs, none) =>
          let r := main_loop once rest
          (Event.iterate :: evs ++ r.1, r.2)

theorem hasKey_iff (fs : List (String × Json)) (k : String) :
    hasKey fs k = true ↔ ∃ v, getKey k fs = some v := by
  simp [hasKey, Option.isSome_iff_exists]

theorem getKey_mem {k : String} {v : Json} :
    ∀ {fs : List (String × Json)}, getKey k fs = some v → (k, v) ∈ fs := by
  intro fs
  induction fs with
  | nil => intro h; simp [getKey] at h
  | cons kv rest ih =>
      obtain ⟨k', v'⟩ := kv
      intro h
      by_cases he : k' = k
      · subst he
        simp [getKey] at h
        subst h
        exact List.mem_cons_self _ _
      · simp [getKey, he] at h
        exact List.mem_cons_of_mem _ (ih h)

theorem find?_eq_head?_filter {α : Type} (p : α → Bool) (l : List α) :
    l.find? p = (l.filter p).head? := by
  induction l with
  | nil => rfl
  | cons x rest ih =>
      by_cases hx : p x = true
      · rw [List.find?_cons_of_pos _ hx, List.filter_cons_of_pos hx]
        rfl
      · rw [List.find?_cons_of_neg _ hx, List.filter_cons_of_neg hx, ih]

mutual
theorem pyEqJson_refl : ∀ j, pyEqJson j j = true
  | Json.null => by simp [pyEqJson]
  | Json.bool b => by simp [pyEqJson]
  | Json.num n => by simp [pyEqJson]
  | Json.str s => by simp [pyEqJson]
  | Json.arr l => by simp [pyEqJson, pyEqList_refl l]
  | Json.obj fs => by simp [pyEqJson, pyEqFields_refl fs]
theorem pyEqList_refl : ∀ l, pyEqList l l = true
  | [] => by simp [pyEqList]
  | a :: as' => by simp [pyEqList, pyEqJson_refl a, pyEqList_refl as']
theorem pyEqFields_refl : ∀ fs, pyEqFields fs fs = true
  | [] => by simp [pyEqFields]
  | (k, v) :: rest => by simp [pyEqFields, pyEqJson_refl v, pyEqFields_refl rest]
end

theorem pyEqOpt_refl (o : Option Json) : pyEqOpt o o = true := by
  cases o <;> simp [pyEqOpt, pyEqJson_refl]

theorem pyEqOptInt_num (i : Int) : pyEqOptInt (some (Json.num i)) i = true := by
  simp [pyEqOptInt, pyEqInt]

theorem filter_and {α : Type} (p q : α → Bool) (l : List α) :
    (l.filter p).filter q = l.filter (fun a => p a && q a) := by
  induction l with
  | nil => rfl
  | cons x rest ih =>
      by_cases hp : p x = true
      · by_cases hq : q x = true
        · rw [List.filter_cons_of_pos hp, List.filter_cons_of_pos hq,
            List.filter_cons_of_pos (by simp [hp, hq]), ih]
        · rw [List.filter_cons_of_pos hp, List.filter_cons_of_neg hq,
            List.filter_cons_of_neg (by simp [hp, hq]), ih]
      · rw [List.filter_cons_of_neg hp,
          List.filter_cons_of_neg (by simp [hp]), ih]

/-- C6: find_channel_settings_key follows the preference order the spec states:
among keys ending in Settings (case-insensitive) that match the role, one
containing the kind hint if any exists; otherwise the first role match;
otherwise any key ending in Settings; otherwise the not-found marker. The order
is stated as an equation against find_channel_settings_key_spec, the lookup
written from the spec's words. -/
theorem c6_preference_order (cj : List (String × Json)) (role : String)
    (hint : Option String) :
    find_channel_settings_key cj role hint = find_channel_settings_key_spec cj role hint := by
  have hfall :
      (match (cj.map Prod.fst).filter
          (fun k => strEndsWith (pyLower k) "settings" && strContains (pyLower k) (pyLower role)) with
       | k :: _ => some k
       | [] => (cj.map Prod.fst).find? (fun k => strEndsWith (pyLower k) "settings")) =
      (((cj.map Prod.fst).filter
          (fun k => strEndsWith (pyLower k) "settings" && strContains (pyLower k) (pyLower role))).head? <|>
       ((cj.map Prod.fst).filter (fun k => strEndsWith (pyLower k) "settings")).head?) := by
    cases hc : (cj.map Prod.fst).filter
        (fun k => strEndsWith (pyLower k) "settings" && strContains (pyLower k) (pyLower role)) with
    | nil => rw [find?_eq_head?_filter]; rfl
    | cons a t => rfl
  cases hint with
  | none =>
      simp only [find_channel_settings_key, find_channel_settings_key_spec, filter_and]
      exact hfall
  | some h =>
      simp only [find_channel_settings_key, find_channel_settings_key_spec, filter_and]
      by_cases he : h.isEmpty = true
      · rw [if_pos he]
        exact hfall
      · rw [if_neg he]
        cases hf : ((cj.map Prod.fst).filter
            (fun k => strEndsWith (pyLower k) "settings" && strContains (pyLower k) (pyLower role))).find?
            (fun k => strContains (pyLower k) (pyLower h)) with
          | some k => rfl
          | none => exact hfall

/-- C1 counterexample: a channel document containing both a key ending in
DemodSettings and a key ending in ModSettings, where a mod-role lookup with no
kind hint returns the DemodSettings key, because the role test is a lowercase
substring test and mod is a substring of demod, and the DemodSettings key comes
first in document order. -/
theorem c1_counterexample :
    find_channel_settings_key
      [("SSBDemodSettings", Json.obj []), ("SSBModSettings", Json.obj [])]
      "mod" none = some "SSBDemodSettings" ∧
    "SSBDemodSettings" ≠ "SSBModSettings" := by
  constructor
  · rfl
  · decide

/-- C1 amended: a mod-role lookup with no kind hint returns the first key in
document order that ends in Settings and contains mod, both case-insensitively;
since mod occurs inside demod, a DemodSettings key qualifies too, and is
returned whenever it precedes the ModSettings key. -/
theorem c1_amended (cj : List (String × Json)) (k : String)
    (h : (cj.map Prod.fst).find?
        (fun k' => strEndsWith (pyLower k') "settings" && strContains (pyLower k') "mod") =
      some k) :
    find_channel_settings_key cj "mod" none = some k := by
  have hm : pyLower "mod" = "mod" := rfl
  simp only [find_channel_settings_key, hm]
  rw [find?_eq_head?_filter] at h
  cases hc : (cj.map Prod.fst).filter
      (fun k' => strEndsWith (pyLower k') "settings" && strContains (pyLower k') "mod") with
  | nil => rw [hc] at h; exact absurd h (by simp)
  | cons a t =>
      rw [hc] at h
      simp only [List.head?_cons, Option.some.injEq] at h
      subst h
      rfl

/-- C1 amended, witnessed at the counterexample document: the first Settings key
containing mod is the DemodSettings key, and the lookup returns it. -/
theorem c1_amended_witness :
    find_channel_settings_key
      [("SSBDemodSettings", Json.obj []), ("SSBModSettings", Json.obj [])]
      "mod" none = some "SSBDemodSettings" :=
  c1_amended _ _ (by rfl)

theorem tryCandidates_block_false {d : List (String × Json)} {b : String}
    (rest : List (String × Option String)) (h : blockMatches d b = false) :
    tryCandidates d ((b, some "centerFrequency") :: rest) = tryCandidates d rest := by
  simp only [tryCandidates]
  cases hg : getKey b d with
  | none => rfl
  | some v =>
      cases v with
      | obj o =>
          unfold blockMatches at h
          rw [hg] at h
          simp only [] at h
          simp [h]
      | null => rfl
      | bool b' => rfl
      | num n => rfl
      | str s => rfl
      | arr l => rfl

theorem tryCandidates_block_true {d : List (String × Json)} {b : String}
    (rest : List (String × Option String)) (h : blockMatches d b = true) :
    ∃ o, getKey b d = some (Json.obj o) ∧ hasKey o "centerFrequency" = true ∧
      tryCandidates d ((b, some "centerFrequency") :: rest) =
        some (o, "centerFrequency", [JStep.field b]) := by
  unfold blockMatches at h
  cases hg : getKey b d with
  | none => rw [hg] at h; exact absurd h (by simp)
  | some v =>
      cases v with
      | obj o =>
          rw [hg] at h
          simp only [] at h
          refine ⟨o, rfl, h, ?_⟩
          simp only [tryCandidates]
          rw [hg]
          simp [h]
      | null => rw [hg] at h; exact absurd h (by simp)
      | bool b' => rw [hg] at h; exact absurd h (by simp)
      | num n => rw [hg] at h; exact absurd h (by simp)
      | str s => rw [hg] at h; exact absurd h (by simp)
      | arr l => rw [hg] at h; exact absurd h (by simp)

theorem arrObjEntries_mem {pr : List JStep × Json} {p : List JStep} {k : String} :
    ∀ {l : List Json} {i : Nat}, pr ∈ arrObjEntries p k i l →
      ∃ o, pr.2 = Json.obj o ∧ Json.obj o ∈ l := by
  intro l
  induction l with
  | nil => intro i h; simp [arrObjEntries] at h
  | cons x rest ih =>
      intro i h
      cases x with
      | obj o =>
          rw [arrObjEntries] at h
          rcases List.mem_cons.mp h with h | h
          · exact ⟨o, by rw [h], List.mem_cons_self _ _⟩
          · obtain ⟨o', ho, hm⟩ := ih h
            exact ⟨o', ho, List.mem_cons_of_mem _ hm⟩
      | null =>
          rw [arrObjEntries] at h
          · obtain ⟨o', ho, hm⟩ := ih h
            exact ⟨o', ho, List.mem_cons_of_mem _ hm⟩
          · simp
      | bool b =>
          rw [arrObjEntries] at h
          · obtain ⟨o', ho, hm⟩ := ih h
            exact ⟨o', ho, List.mem_cons_of_mem _ hm⟩
          · simp
      | num n =>
          rw [arrObjEntries] at h
          · obtain ⟨o', ho, hm⟩ := ih h
            exact ⟨o', ho, List.mem_cons_of_mem _ hm⟩
          · simp
      | str s =>
          rw [arrObjEntries] at h
          · obtain ⟨o', ho, hm⟩ := ih h
            exact ⟨o', ho, List.mem_cons_of_mem _ hm⟩
          · simp
      | arr l' =>
          rw [arrObjEntries] at h
          · obtain ⟨o', ho, hm⟩ := ih h
            exact ⟨o', ho, List.mem_cons_of_mem _ hm⟩
          · simp

theorem childEntries_mem {pr : List JStep × Json} {p : List JStep} :
    ∀ {fs : List (String × Json)}, pr ∈ childEntries p fs →
      ∃ o, pr.2 = Json.obj o ∧
        ((∃ k, (k, Json.obj o) ∈ fs) ∨
         (∃ k l, (k, Json.arr l) ∈ fs ∧ Json.obj o ∈ l)) := by
  intro fs
  induction fs with
  | nil => intro h; simp [childEntries] at h
  | cons kv rest ih =>
      intro h
      obtain ⟨k, v⟩ := kv
      cases v with
      | obj o =>
          rw [childEntries] at h
          rcases List.mem_cons.mp h with h | h
          · exact ⟨o, by rw [h], Or.inl ⟨k, List.mem_cons_self _ _⟩⟩
          · obtain ⟨o', ho, hcase⟩ := ih h
            refine ⟨o', ho, ?_⟩
            rcases hcase with ⟨k', hm⟩ | ⟨k', l', hm, hml⟩
            · exact Or.inl ⟨k', List.mem_cons_of_mem _ hm⟩
            · exact Or.inr ⟨k', l', List.mem_cons_of_mem _ hm, hml⟩
      | arr l =>
          rw [childEntries] at h
          rcases List.mem_append.mp h with h | h
          · obtain ⟨o', ho, hml⟩ := arrObjEntries_mem h
            exact ⟨o', ho, Or.inr ⟨k, l, List.mem_cons_self _ _, hml⟩⟩
          · obtain ⟨o', ho, hcase⟩ := ih h
            refine ⟨o', ho, ?_⟩
            rcases hcase with ⟨k', hm⟩ | ⟨k', l', hm, hml⟩
            · exact Or.inl ⟨k', List.mem_cons_of_mem _ hm⟩
            · exact Or.inr ⟨k', l', List.mem_cons_of_mem _ hm, hml⟩
      | null =>
          rw [childEntries] at h
          · obtain ⟨o', ho, hcase⟩ := ih h
            refine ⟨o', ho, ?_⟩
            rcases hcase with ⟨k', hm⟩ | ⟨k', l', hm, hml⟩
            · exact Or.inl ⟨k', List.mem_cons_of_mem _ hm⟩
            · exact Or.inr ⟨k', l', List.mem_cons_of_mem _ hm, hml⟩
          · simp
          · simp
      | bool b =>
          rw [childEntries] at h
          · obtain ⟨o', ho, hcase⟩ := ih h
            refine ⟨o', ho, ?_⟩
            rcases hcase with ⟨k', hm⟩ | ⟨k', l', hm, hml⟩
            · exact Or.inl ⟨k', List.mem_cons_of_mem _ hm⟩
            · exact Or.inr ⟨k', l', List.mem_cons_of_mem _ hm, hml⟩
          · simp
          · simp
      | num n =>
          rw [childEntries] at h
          · obtain ⟨o', ho, hcase⟩ := ih h
            refine ⟨o', ho, ?_⟩
            rcases hcase with ⟨k', hm⟩ | ⟨k', l', hm, hml⟩
            · exact Or.inl ⟨k', List.mem_cons_of_mem _ hm⟩
            · exact Or.inr ⟨k', l', List.mem_cons_of_mem _ hm, hml⟩
          · simp
          · simp
      | str s =>
          rw [childEntries] at h
          · obtain ⟨o', ho, hcase⟩ := ih h
            refine ⟨o', ho, ?_⟩
            rcases hcase with ⟨k', hm⟩ | ⟨k', l', hm, hml⟩
            · exact Or.inl ⟨k', List.mem_cons_of_mem _ hm⟩
            · exact Or.inr ⟨k', l', List.mem_cons_of_mem _ hm, hml⟩
          · simp
          · simp

theorem cfSearch_sound (d : List (String × Json)) :
    ∀ (stack : List (List JStep × Json)),
      (∀ pr ∈ stack, ∀ fs, pr.2 = Json.obj fs → ReachDict d fs) →
      ∀ c k p, cfSearch stack = some (c, k, p) →
        k = "centerFrequency" ∧ hasKey c "centerFrequency" = true ∧ ReachDict d c := by
  intro stack
  induction stack using cfSearch.induct with
  | case1 =>
      intro hinv c k p h
      rw [cfSearch] at h
      exact absurd h (by simp)
  | case2 p fs rest hk =>
      intro hinv c k p' h
      rw [cfSearch, if_pos hk] at h
      simp only [Option.some.injEq, Prod.mk.injEq] at h
      obtain ⟨h1, h2, h3⟩ := h
      refine ⟨h2.symm, ?_, ?_⟩
      · rw [← h1]; exact hk
      · rw [← h1]; exact hinv (p, Json.obj fs) (List.mem_cons_self _ _) fs rfl
  | case3 p fs rest hk ih =>
      intro hinv c k p' h
      rw [cfSearch, if_neg hk] at h
      refine ih ?_ c k p' h
      intro pr hpr fs' hfs'
      rcases List.mem_append.mp hpr with hL | hR
      · obtain ⟨o, ho, hcase⟩ := childEntries_mem (List.mem_reverse.mp hL)
        have hoe : fs' = o := by
          rw [hfs'] at ho
          injection ho
        subst hoe
        have hfsr : ReachDict d fs := hinv (p, Json.obj fs) (List.mem_cons_self _ _) fs rfl
        rcases hcase with ⟨k', hm'⟩ | ⟨k', l', hm', hml⟩
        · exact ReachDict.viaField k' hfsr hm'
        · exact ReachDict.viaArr k' hfsr hm' hml
      · exact hinv pr (List.mem_cons_of_mem _ hR) fs' hfs'
  | case4 head rest hne ih =>
      intro hinv c k p h
      rw [cfSearch] at h
      · exact ih (fun pr hpr => hinv pr (List.mem_cons_of_mem _ hpr)) c k p h
      · exact hne

theorem tryCandidates_sound (d : List (String × Json)) :
    ∀ (cands : List (String × Option String)) (r),
      tryCandidates d cands = some r →
      (∃ k, (k, (none : Option String)) ∈ cands ∧ hasKey d k = true ∧ r = (d, k, [])) ∨
      (∃ b sk o, (b, some sk) ∈ cands ∧ getKey b d = some (Json.obj o) ∧
        hasKey o sk = true ∧ r = (o, sk, [JStep.field b])) := by
  intro cands
  induction cands with
  | nil => intro r h; simp [tryCandidates] at h
  | cons e rest ih =>
      intro r h
      obtain ⟨k, sk⟩ := e
      cases sk with
      | none =>
          rw [tryCandidates] at h
          by_cases hk : hasKey d k = true
          · rw [if_pos hk] at h
            simp only [Option.some.injEq] at h
            exact Or.inl ⟨k, List.mem_cons_self _ _, hk, h.symm⟩
          · rw [if_neg hk] at h
            rcases ih r h with ⟨k', hm, hh, hr⟩ | ⟨b, sk', o, hm, hg, hh, hr⟩
            · exact Or.inl ⟨k', List.mem_cons_of_mem _ hm, hh, hr⟩
            · exact Or.inr ⟨b, sk', o, List.mem_cons_of_mem _ hm, hg, hh, hr⟩
      | some sk' =>
          rw [tryCandidates] at h
          cases hg : getKey k d with
          | none =>
              rw [hg] at h
              simp only [] at h
              rcases ih r h with ⟨k', hm, hh, hr⟩ | ⟨b, sk'', o, hm, hg', hh, hr⟩
              · exact Or.inl ⟨k', List.mem_cons_of_mem _ hm, hh, hr⟩
              · exact Or.inr ⟨b, sk'', o, List.mem_cons_of_mem _ hm, hg', hh, hr⟩
          | some v =>
              cases v with
              | obj o =>
                  rw [hg] at h
                  simp only [] at h
                  by_cases hko : hasKey o sk' = true
                  · rw [if_pos hko] at h
                    simp only [Option.some.injEq] at h
                    exact Or.inr ⟨k, sk', o, List.mem_cons_self _ _, hg, hko, h.symm⟩
                  · rw [if_neg hko] at h
                    rcases ih r h with ⟨k', hm, hh, hr⟩ | ⟨b, sk'', o', hm, hg', hh, hr⟩
                    · exact Or.inl ⟨k', List.mem_cons_of_mem _ hm, hh, hr⟩
                    · exact Or.inr ⟨b, sk'', o', List.mem_cons_of_mem _ hm, hg', hh, hr⟩
              | null =>
                  rw [hg] at h
                  simp only [] at h
                  rcases ih r h with ⟨k', hm, hh, hr⟩ | ⟨b, sk'', o', hm, hg', hh, hr⟩
                  · exact Or.inl ⟨k', List.mem_cons_of_mem _ hm, hh, hr⟩
                  · exact Or.inr ⟨b, sk'', o', List.mem_cons_of_mem _ hm, hg', hh, hr⟩
              | bool b' =>
                  rw [hg] at h
                  simp only [] at h
                  rcases ih r h with ⟨k', hm, hh, hr⟩ | ⟨b, sk'', o', hm, hg', hh, hr⟩
                  · exact Or.inl ⟨k', List.mem_cons_of_mem _ hm, hh, hr⟩
                  · exact Or.inr ⟨b, sk'', o', List.mem_cons_of_mem _ hm, hg', hh, hr⟩
              | num n =>
                  rw [hg] at h
                  simp only [] at h
                  rcases ih r h with ⟨k', hm, hh, hr⟩ | ⟨b, sk'', o', hm, hg', hh, hr⟩
                  · exact Or.inl ⟨k', List.mem_cons_of_mem _ hm, hh, hr⟩
                  · exact Or.inr ⟨b, sk'', o', List.mem_cons_of_mem _ hm, hg', hh, hr⟩
              | str s =>
                  rw [hg] at h
                  simp only [] at h
                  rcases ih r h with ⟨k', hm, hh, hr⟩ | ⟨b, sk'', o', hm, hg', hh, hr⟩
                  · exact Or.inl ⟨k', List.mem_cons_of_mem _ hm, hh, hr⟩
                  · exact Or.inr ⟨b, sk'', o', List.mem_cons_of_mem _ hm, hg', hh, hr⟩
              | arr l =>
                  rw [hg] at h
                  simp only [] at h
                  rcases ih r h with ⟨k', hm, hh, hr⟩ | ⟨b, sk'', o', hm, hg', hh, hr⟩
                  · exact Or.inl ⟨k', List.mem_cons_of_mem _ hm, hh, hr⟩
                  · exact Or.inr ⟨b, sk'', o', List.mem_cons_of_mem _ hm, hg', hh, hr⟩

theorem find_sound {d c : List (String × Json)} {k : String} {p : List JStep}
    (h : find_center_freq_path d = some (c, k, p)) :
    k = "centerFrequency" ∧ hasKey c "centerFrequency" = true ∧ ReachDict d c := by
  unfold find_center_freq_path at h
  cases ht : tryCandidates d knownCandidates with
  | some r =>
      rw [ht] at h
      simp only [Option.some.injEq] at h
      subst h
      rcases tryCandidates_sound d knownCandidates (c, k, p) ht with
        ⟨k', hm, hh, hr⟩ | ⟨b, sk, o, hm, hg, hh, hr⟩
      · have hk' : k' = "centerFrequency" := by
          simp [knownCandidates] at hm
          exact hm
        simp only [Prod.mk.injEq] at hr
        obtain ⟨h1, h2, h3⟩ := hr
        subst h1
        subst h2
        subst hk'
        exact ⟨rfl, hh, ReachDict.root⟩
      · have hsk : sk = "centerFrequency" := by
          simp [knownCandidates] at hm
          rcases hm with ⟨_, h'⟩ | ⟨_, h'⟩ | ⟨_, h'⟩ | ⟨_, h'⟩ <;> exact h'
        simp only [Prod.mk.injEq] at hr
        obtain ⟨h1, h2, h3⟩ := hr
        subst h1
        subst h2
        subst hsk
        exact ⟨rfl, hh, ReachDict.viaField b ReachDict.root (getKey_mem hg)⟩
  | none =>
      rw [ht] at h
      refine cfSearch_sound d [([], Json.obj d)] ?_ c k p h
      intro pr hpr fs hfs
      have hpr' : pr = ([], Json.obj d) := List.mem_singleton.mp hpr
      rw [hpr'] at hfs
      have : d = fs := by injection hfs
      rw [← this]
      exact ReachDict.root

theorem containsKeyJ_of_hasKey {fs : List (String × Json)} {s : String}
    (h : hasKey fs s = true) : containsKeyJ s (Json.obj fs) = true := by
  rw [containsKeyJ, h]
  simp

theorem containsKeyFields_of_mem {s k : String} {v : Json} :
    ∀ {fs : List (String × Json)}, (k, v) ∈ fs → containsKeyJ s v = true →
      containsKeyFields s fs = true := by
  intro fs
  induction fs with
  | nil => intro hm; simp at hm
  | cons kv rest ih =>
      intro hm hc
      obtain ⟨k0, v0⟩ := kv
      rcases List.mem_cons.mp hm with h | h
      · have hv : v0 = v := (Prod.mk.injEq _ _ _ _ ▸ h.symm).2
        rw [containsKeyFields, hv, hc]
        simp
      · rw [containsKeyFields, ih h hc]
        simp

theorem containsKeyElems_of_mem {s : String} {j : Json} :
    ∀ {l : List Json}, j ∈ l → containsKeyJ s j = true →
      containsKeyElems s l = true := by
  intro l
  induction l with
  | nil => intro hm; simp at hm
  | cons x rest ih =>
      intro hm hc
      rcases List.mem_cons.mp hm with h | h
      · rw [containsKeyElems, ← h, hc]
        simp
      · rw [containsKeyElems, ih h hc]
        simp

theorem reach_contains {d fs : List (String × Json)} {s : String} (h : ReachDict d fs) :
    containsKeyJ s (Json.obj fs) = true → containsKeyJ s (Json.obj d) = true := by
  induction h with
  | root => exact id
  | viaField k hr hm ih =>
      intro hc
      refine ih ?_
      rw [containsKeyJ, containsKeyFields_of_mem hm hc]
      simp
  | @viaArr fs' o' l' k hr hmf hml ih =>
      intro hc
      refine ih ?_
      have h1 : containsKeyJ s (Json.arr l') = true := by
        rw [containsKeyJ]
        exact containsKeyElems_of_mem hml hc
      rw [containsKeyJ, containsKeyFields_of_mem hmf h1]
      simp

theorem blockMatches_contains {d : List (String × Json)} {b : String}
    (h : blockMatches d b = true) :
    containsKeyJ "centerFrequency" (Json.obj d) = true := by
  unfold blockMatches at h
  cases hg : getKey b d with
  | none => rw [hg] at h; exact absurd h (by simp)
  | some v =>
      cases v with
      | obj o =>
          rw [hg] at h
          simp only [] at h
          have hm := getKey_mem hg
          rw [containsKeyJ, containsKeyFields_of_mem hm (containsKeyJ_of_hasKey h)]
          simp
      | null => rw [hg] at h; exact absurd h (by simp)
      | bool b' => rw [hg] at h; exact absurd h (by simp)
      | num n => rw [hg] at h; exact absurd h (by simp)
      | str s => rw [hg] at h; exact absurd h (by simp)
      | arr l => rw [hg] at h; exact absurd h (by simp)

/-- C9: whenever find_center_freq_path returns a non-absent result, the returned
key is centerFrequency and is present in the returned container, so reading
container[key] succeeds; and the container is a dictionary node of the input
document, reachable from its root (ReachDict), which is what makes the in-place
overwrite through the returned reference a mutation of the document itself. -/
theorem c9_container_validity {d c : List (String × Json)} {k : String}
    {p : List JStep} (h : find_center_freq_path d = some (c, k, p)) :
    k = "centerFrequency" ∧ (∃ v, getKey k c = some v) ∧ ReachDict d c := by
  obtain ⟨h1, h2, h3⟩ := find_sound h
  refine ⟨h1, ?_, h3⟩
  rw [h1]
  exact (hasKey_iff c "centerFrequency").mp h2

/-- C9 witnessed at a concrete device document with a top-level centerFrequency:
the returned container is the document itself and reading the key succeeds. -/
theorem c9_witness :
    "centerFrequency" = "centerFrequency" ∧
    (∃ v, getKey "centerFrequency" [("centerFrequency", Json.num 7)] = some v) ∧
    ReachDict [("centerFrequency", Json.num 7)] [("centerFrequency", Json.num 7)] :=
  c9_container_validity (by rfl)

/-- C10: the fallback traversal descends into dictionary values and into
dictionaries that are direct elements of list values, never into lists nested
directly inside lists; hence for a document that does contain a centerFrequency
key somewhere, but in no dictionary reachable by those two descent rules, the
locator returns the absent marker. -/
theorem c10_list_in_list_unreachable (d : List (String × Json))
    (hex : containsKeyJ "centerFrequency" (Json.obj d) = true)
    (hun : ∀ fs, ReachDict d fs → hasKey fs "centerFrequency" = false) :
    find_center_freq_path d = none := by
  cases hf : find_center_freq_path d with
  | none => rfl
  | some r =>
      obtain ⟨c, k, p⟩ := r
      obtain ⟨h1, h2, h3⟩ := find_sound hf
      have hfalse := hun c h3
      rw [h2] at hfalse
      exact absurd hfalse (by simp)

/-- C10 witnessed at a document whose only centerFrequency sits in a dictionary
inside a list of lists: the key exists in the document but the locator reports
the absent marker. -/
theorem c10_witness :
    find_center_freq_path
      [("boxes", Json.arr [Json.arr [Json.obj [("centerFrequency", Json.num 1)]]])] =
      none := by
  have hchar : ∀ fs, ReachDict
      [("boxes", Json.arr [Json.arr [Json.obj [("centerFrequency", Json.num 1)]]])] fs →
      fs = [("boxes", Json.arr [Json.arr [Json.obj [("centerFrequency", Json.num 1)]]])] := by
    intro fs h
    induction h with
    | root => rfl
    | @viaField fs0 o0 k hr hm ih =>
        rw [ih] at hm
        simp at hm
    | @viaArr fs0 o0 l0 k hr hmf hml ih =>
        rw [ih] at hmf
        simp at hmf
        rw [hmf.2] at hml
        simp at hml
  refine c10_list_in_list_unreachable _ (by rfl) ?_
  intro fs h
  rw [hchar fs h]
  rfl

/-- C5: schema tolerance of the center-frequency locator. If centerFrequency
appears nested under a known driver-specific block, the locator returns that
nested container and key; if no known block matches and only a top-level
centerFrequency exists, it returns the top-level container and key; and if no
centerFrequency exists anywhere in the document, it returns the explicit absent
marker instead of raising. -/
theorem c5_schema_tolerance (d : List (String × Json)) :
    ((∃ b ∈ blockNames, blockMatches d b = true) →
      ∃ b o, b ∈ blockNames ∧ getKey b d = some (Json.obj o) ∧
        hasKey o "centerFrequency" = true ∧
        find_center_freq_path d = some (o, "centerFrequency", [JStep.field b])) ∧
    ((hasKey d "centerFrequency" = true ∧ ∀ b ∈ blockNames, blockMatches d b = false) →
      find_center_freq_path d = some (d, "centerFrequency", [])) ∧
    (containsKeyJ "centerFrequency" (Json.obj d) = false →
      find_center_freq_path d = none) := by
  have hfull : knownCandidates =
      ("limeSdrInputSettings", some "centerFrequency") ::
      [("limeSdrOutputSettings", some "centerFrequency"),
       ("usrpInputSettings", some "centerFrequency"),
       ("usrpOutputSettings", some "centerFrequency"),
       ("centerFrequency", none)] := rfl
  refine ⟨?_, ?_, ?_⟩
  · rintro ⟨b, hb, hbm⟩
    by_cases h1 : blockMatches d "limeSdrInputSettings" = true
    · obtain ⟨o, hg, hk, htc⟩ := tryCandidates_block_true
        [("limeSdrOutputSettings", some "centerFrequency"),
         ("usrpInputSettings", some "centerFrequency"),
         ("usrpOutputSettings", some "centerFrequency"),
         ("centerFrequency", none)] h1
      refine ⟨"limeSdrInputSettings", o, by simp [blockNames], hg, hk, ?_⟩
      unfold find_center_freq_path
      rw [hfull, htc]
    · have hb1 : blockMatches d "limeSdrInputSettings" = false := by
        cases hx : blockMatches d "limeSdrInputSettings"
        · rfl
        · exact absurd hx h1
      by_cases h2 : blockMatches d "limeSdrOutputSettings" = true
      · obtain ⟨o, hg, hk, htc⟩ := tryCandidates_block_true
          [("usrpInputSettings", some "centerFrequency"),
           ("usrpOutputSettings", some "centerFrequency"),
           ("centerFrequency", none)] h2
        refine ⟨"limeSdrOutputSettings", o, by simp [blockNames], hg, hk, ?_⟩
        unfold find_center_freq_path
        rw [hfull, tryCandidates_block_false _ hb1, htc]
      · have hb2 : blockMatches d "limeSdrOutputSettings" = false := by
          cases hx : blockMatches d "limeSdrOutputSettings"
          · rfl
          · exact absurd hx h2
        by_cases h3 : blockMatches d "usrpInputSettings" = true
        · obtain ⟨o, hg, hk, htc⟩ := tryCandidates_block_true
            [("usrpOutputSettings", some "centerFrequency"),
             ("centerFrequency", none)] h3
          refine ⟨"usrpInputSettings", o, by simp [blockNames], hg, hk, ?_⟩
          unfold find_center_freq_path
          rw [hfull, tryCandidates_block_false _ hb1, tryCandidates_block_false _ hb2, htc]
        · have hb3 : blockMatches d "usrpInputSettings" = false := by
            cases hx : blockMatches d "usrpInputSettings"
            · rfl
            · exact absurd hx h3
          by_cases h4 : blockMatches d "usrpOutputSettings" = true
          · obtain ⟨o, hg, hk, htc⟩ := tryCandidates_block_true
              [("centerFrequency", none)] h4
            refine ⟨"usrpOutputSettings", o, by simp [blockNames], hg, hk, ?_⟩
            unfold find_center_freq_path
            rw [hfull, tryCandidates_block_false _ hb1, tryCandidates_block_false _ hb2,
              tryCandidates_block_false _ hb3, htc]
          · exfalso
            simp [blockNames] at hb
            rcases hb with rfl | rfl | rfl | rfl
            · exact h1 hbm
            · exact h2 hbm
            · exact h3 hbm
            · exact h4 hbm
  · rintro ⟨htop, hall⟩
    have hb1 := hall "limeSdrInputSettings" (by simp [blockNames])
    have hb2 := hall "limeSdrOutputSettings" (by simp [blockNames])
    have hb3 := hall "usrpInputSettings" (by simp [blockNames])
    have hb4 := hall "usrpOutputSettings" (by simp [blockNames])
    unfold find_center_freq_path
    rw [hfull, tryCandidates_block_false _ hb1, tryCandidates_block_false _ hb2,
      tryCandidates_block_false _ hb3, tryCandidates_block_false _ hb4,
      tryCandidates, if_pos htop]
  · intro hnc
    have hbf : ∀ b, blockMatches d b = false := by
      intro b
      cases hx : blockMatches d b
      · rfl
      · exact absurd (blockMatches_contains hx) (by rw [hnc]; simp)
    have htop : hasKey d "centerFrequency" = false := by
      cases hx : hasKey d "centerFrequency"
      · rfl
      · exact absurd (containsKeyJ_of_hasKey hx) (by rw [hnc]; simp)
    have htry : tryCandidates d knownCandidates = none := by
      rw [hfull, tryCandidates_block_false _ (hbf _), tryCandidates_block_false _ (hbf _),
        tryCandidates_block_false _ (hbf _), tryCandidates_block_false _ (hbf _),
        tryCandidates, if_neg (by rw [htop]; simp)]
      rfl
    cases hcf : cfSearch [([], Json.obj d)] with
    | none =>
        unfold find_center_freq_path
        rw [htry, hcf]
    | some r =>
        obtain ⟨c, k, p⟩ := r
        have hinv : ∀ pr ∈ [(([] : List JStep), Json.obj d)],
            ∀ fs, pr.2 = Json.obj fs → ReachDict d fs := by
          intro pr hpr fs hfs
          have hpr' : pr = ([], Json.obj d) := List.mem_singleton.mp hpr
          rw [hpr'] at hfs
          have hde : d = fs := by injection hfs
          rw [← hde]
          exact ReachDict.root
        obtain ⟨h1, h2, h3⟩ := cfSearch_sound d _ hinv c k p hcf
        have := reach_contains h3 (containsKeyJ_of_hasKey h2)
        rw [hnc] at this
        exact absurd this (by simp)

/-- C5 witnessed at three concrete documents: a LimeSDR-style nested block, a
top-level-only centerFrequency, and a document with no centerFrequency at all. -/
theorem c5_witness :
    (∃ b o, b ∈ blockNames ∧
      getKey b [("limeSdrInputSettings", Json.obj [("centerFrequency", Json.num 145000000)])] =
        some (Json.obj o) ∧
      hasKey o "centerFrequency" = true ∧
      find_center_freq_path
        [("limeSdrInputSettings", Json.obj [("centerFrequency", Json.num 145000000)])] =
        some (o, "centerFrequency", [JStep.field b])) ∧
    find_center_freq_path [("centerFrequency", Json.num 7)] =
      some ([("centerFrequency", Json.num 7)], "centerFrequency", []) ∧
    find_center_freq_path [("driver", Json.str "rtlsdr")] = none := by
  refine ⟨?_, ?_, ?_⟩
  · exact (c5_schema_tolerance _).1 ⟨"limeSdrInputSettings", by simp [blockNames], by rfl⟩
  · exact (c5_schema_tolerance _).2.1 ⟨by rfl, by decide⟩
  · exact (c5_schema_tolerance _).2.2 (by rfl)

theorem getKey_setKey_self (l : List (String × Json)) (k : String) (v : Json) :
    getKey k (setKey l k v) = some v := by
  induction l with
  | nil => simp [setKey, getKey]
  | cons kv rest ih =>
      obtain ⟨k0, v0⟩ := kv
      by_cases he : k0 = k
      · subst he
        simp [setKey, getKey]
      · simp [setKey, getKey, he, ih]

theorem getKey_setKey_ne (l : List (String × Json)) {k k' : String} (v : Json)
    (hne : k' ≠ k) : getKey k' (setKey l k v) = getKey k' l := by
  have hkk : ¬(k = k') := fun h => hne h.symm
  induction l with
  | nil => simp [setKey, getKey, hkk]
  | cons kv rest ih =>
      obtain ⟨k0, v0⟩ := kv
      by_cases he : k0 = k
      · subst he
        simp [setKey, getKey, hkk]
      · simp [setKey, getKey, he, ih]

theorem keys_setKey_of_hasKey (l : List (String × Json)) (k : String) (v : Json)
    (h : hasKey l k = true) : (setKey l k v).map Prod.fst = l.map Prod.fst := by
  induction l with
  | nil => simp [hasKey, getKey] at h
  | cons kv rest ih =>
      obtain ⟨k0, v0⟩ := kv
      by_cases he : k0 = k
      · subst he
        simp [setKey]
      · have h' : hasKey rest k = true := by
          simp [hasKey, getKey, he] at h
          simpa [hasKey] using h
        simp [setKey, he, ih h']

theorem set_tx_unchanged {data : List (String × Json)} {mk : String}
    {ms : List (String × Json)} {shift : Int}
    (h3 : find_channel_settings_key data "mod" (some "ssb") = some mk)
    (h4 : getKey mk data = some (Json.obj ms))
    (hcur : pyEqOptInt (getKey "inputFrequencyOffset" ms) shift = true) :
    set_tx_ssb_shift_if_changed shift data = Except.ok (false, none) := by
  simp only [set_tx_ssb_shift_if_changed, h3, h4]
  rw [if_pos hcur]

theorem set_tx_changed {data : List (String × Json)} {mk : String}
    {ms : List (String × Json)} {shift : Int}
    (h3 : find_channel_settings_key data "mod" (some "ssb") = some mk)
    (h4 : getKey mk data = some (Json.obj ms))
    (hcur : pyEqOptInt (getKey "inputFrequencyOffset" ms) shift = false) :
    set_tx_ssb_shift_if_changed shift data = Except.ok (true,
      some (setKey data mk (Json.obj (setKey ms "inputFrequencyOffset" (Json.num shift))))) := by
  simp only [set_tx_ssb_shift_if_changed, h3, h4]
  rw [if_neg (by simp [hcur])]

theorem set_device_unchanged {dev : List (String × Json)}
    {c : List (String × Json)} {k : String} {p : List JStep} {new : Option Json}
    (hfind : find_center_freq_path dev = some (c, k, p))
    (heq : pyEqOpt (getKey k c) new = true) :
    set_device_center_frequency_if_changed new dev = Except.ok (false, none) := by
  simp only [set_device_center_frequency_if_changed, hfind]
  rw [if_pos heq]

/-- C3: idempotence. When the remote state is already converged, meaning the Tx
modulator inputFrequencyOffset already equals the Rx offset plus the fixed
offset, and the alignment-target device centerFrequency already equals the
reference device centerFrequency, one run of mirror_and_align_once issues zero
PATCH calls. -/
theorem c3_idempotent (r : Remote) (offset : Int) (shift : Json) (applied : Int)
    (mk : String) (ms c0 c1 : List (String × Json)) (k0 k1 : String)
    (p0 p1 : List JStep)
    (h1 : get_rx_ssb_shift r.r0Channel = Except.ok shift)
    (h2 : applied_shift shift offset = Except.ok applied)
    (h3 : find_channel_settings_key r.t1Channel "mod" (some "ssb") = some mk)
    (h4 : getKey mk r.t1Channel = some (Json.obj ms))
    (h5 : getKey "inputFrequencyOffset" ms = some (Json.num applied))
    (h6 : find_center_freq_path r.r0Device = some (c0, k0, p0))
    (h7 : find_center_freq_path r.r1Device = some (c1, k1, p1))
    (h8 : getKey k1 c1 = getKey k0 c0) :
    mirror_and_align_once r offset = ([], Except.ok (false, false)) := by
  have htx : set_tx_ssb_shift_if_changed applied r.t1Channel = Except.ok (false, none) :=
    set_tx_unchanged h3 h4 (by rw [h5]; exact pyEqOptInt_num applied)
  have hdev : set_device_center_frequency_if_changed (getKey k0 c0) r.r1Device =
      Except.ok (false, none) :=
    set_device_unchanged h7 (by rw [h8]; exact pyEqOpt_refl _)
  simp only [mirror_and_align_once, h1, h2, h6, htx, hdev]
  simp

/-- C3 witnessed at a concrete already-converged remote state (Rx shift -1500,
fixed offset 500, Tx offset already -1000, both devices at the same center):
the iteration issues no write. -/
theorem c3_witness :
    mirror_and_align_once
      { r0Channel := [("SSBDemodSettings", Json.obj [("inputFrequencyOffset", Json.num (-1500))])],
        r0Device := [("centerFrequency", Json.num 145000000)],
        t1Channel := [("SSBModSettings", Json.obj [("inputFrequencyOffset", Json.num (-1000))])],
        r1Device := [("centerFrequency", Json.num 145000000)] } 500 =
      ([], Except.ok (false, false)) :=
  c3_idempotent _ 500 (Json.num (-1500)) (-1000) "SSBModSettings"
    [("inputFrequencyOffset", Json.num (-1000))]
    [("centerFrequency", Json.num 145000000)]
    [("centerFrequency", Json.num 145000000)]
    "centerFrequency" "centerFrequency" [] []
    (by rfl) (by rfl) (by rfl) (by rfl) (by rfl) (by rfl) (by rfl) (by rfl)

/-- C4: convergence with a frame condition. When the Tx modulator's current
inputFrequencyOffset differs from rx_offset + fixed_offset, one iteration issues
exactly one Tx channel write, whose request body is the fetched Tx document with
just that one leaf replaced by the applied shift: the top-level key list is
unchanged, every other top-level key maps to its old value, and inside the
modulator block every other field maps to its old value. -/
theorem c4_convergence (r : Remote) (offset : Int) (shift : Json) (applied : Int)
    (mk : String) (ms c0 : List (String × Json)) (cur : Json) (k0 : String)
    (p0 : List JStep)
    (h1 : get_rx_ssb_shift r.r0Channel = Except.ok shift)
    (h2 : applied_shift shift offset = Except.ok applied)
    (h3 : find_channel_settings_key r.t1Channel "mod" (some "ssb") = some mk)
    (h4 : getKey mk r.t1Channel = some (Json.obj ms))
    (h5 : getKey "inputFrequencyOffset" ms = some cur)
    (hne : pyEqInt cur applied = false)
    (h6 : find_center_freq_path r.r0Device = some (c0, k0, p0)) :
    (mirror_and_align_once r offset).1.filter isTxWrite =
      [WriteCall.txChannelWrite
        (setKey r.t1Channel mk
          (Json.obj (setKey ms "inputFrequencyOffset" (Json.num applied))))] ∧
    (setKey r.t1Channel mk
        (Json.obj (setKey ms "inputFrequencyOffset" (Json.num applied)))).map Prod.fst =
      r.t1Channel.map Prod.fst ∧
    getKey mk (setKey r.t1Channel mk
        (Json.obj (setKey ms "inputFrequencyOffset" (Json.num applied)))) =
      some (Json.obj (setKey ms "inputFrequencyOffset" (Json.num applied))) ∧
    (∀ k', k' ≠ mk →
      getKey k' (setKey r.t1Channel mk
        (Json.obj (setKey ms "inputFrequencyOffset" (Json.num applied)))) =
      getKey k' r.t1Channel) ∧
    getKey "inputFrequencyOffset" (setKey ms "inputFrequencyOffset" (Json.num applied)) =
      some (Json.num applied) ∧
    (setKey ms "inputFrequencyOffset" (Json.num applied)).map Prod.fst = ms.map Prod.fst ∧
    (∀ f, f ≠ "inputFrequencyOffset" →
      getKey f (setKey ms "inputFrequencyOffset" (Json.num applied)) = getKey f ms) := by
  have htx : set_tx_ssb_shift_if_changed applied r.t1Channel = Except.ok (true,
      some (setKey r.t1Channel mk
        (Json.obj (setKey ms "inputFrequencyOffset" (Json.num applied))))) :=
    set_tx_changed h3 h4 (by rw [h5]; simpa [pyEqOptInt] using hne)
  refine ⟨?_, keys_setKey_of_hasKey _ _ _ ((hasKey_iff _ _).mpr ⟨_, h4⟩),
    getKey_setKey_self _ _ _,
    (fun k' hk' => getKey_setKey_ne _ _ hk'),
    getKey_setKey_self _ _ _,
    keys_setKey_of_hasKey _ _ _ ((hasKey_iff _ _).mpr ⟨_, h5⟩),
    (fun f hf => getKey_setKey_ne _ _ hf)⟩
  cases hsd : set_device_center_frequency_if_changed (getKey k0 c0) r.r1Device with
  | error e =>
      simp only [mirror_and_align_once, h1, h2, h6, htx, hsd]
      simp [isTxWrite]
  | ok pr =>
      obtain ⟨ch, wd⟩ := pr
      cases wd with
      | none =>
          simp only [mirror_and_align_once, h1, h2, h6, htx, hsd]
          simp [isTxWrite]
      | some d2 =>
          simp only [mirror_and_align_once, h1, h2, h6, htx, hsd]
          simp [isTxWrite]

/-- C4 witnessed at a concrete remote state: Rx shift -1500, fixed offset 500,
Tx offset currently 0, so the iteration issues exactly the one Tx write with the
leaf replaced by -1000. -/
theorem c4_witness :
    (mirror_and_align_once
      { r0Channel := [("SSBDemodSettings", Json.obj [("inputFrequencyOffset", Json.num (-1500))])],
        r0Device := [("centerFrequency", Json.num 145000000)],
        t1Channel := [("SSBModSettings", Json.obj [("inputFrequencyOffset", Json.num 0)])],
        r1Device := [("centerFrequency", Json.num 145000000)] } 500).1.filter isTxWrite =
      [WriteCall.txChannelWrite
        (setKey [("SSBModSettings", Json.obj [("inputFrequencyOffset", Json.num 0)])]
          "SSBModSettings"
          (Json.obj (setKey [("inputFrequencyOffset", Json.num 0)]
            "inputFrequencyOffset" (Json.num (-1000)))))] :=
  (c4_convergence _ 500 (Json.num (-1500)) (-1000) "SSBModSettings"
    [("inputFrequencyOffset", Json.num 0)]
    [("centerFrequency", Json.num 145000000)]
    (Json.num 0) "centerFrequency" []
    (by rfl) (by rfl) (by rfl) (by rfl) (by rfl) (by rfl) (by rfl)).1

/-- C8: the applied Tx shift is the integer truncation of rx_offset plus
fixed_offset; on the integral inputs this domain uses, int() truncation is the
identity, so the applied shift is exactly the sum, and in particular an Rx SSB
shift of -1500 with a fixed offset of 500 gives an applied Tx offset of -1000,
which one iteration writes into the Tx modulator block. -/
theorem c8_offset_arithmetic :
    (∀ (s offset : Int), applied_shift (Json.num s) offset = Except.ok (s + offset)) ∧
    applied_shift (Json.num (-1500)) 500 = Except.ok (-1000) ∧
    (mirror_and_align_once
      { r0Channel := [("SSBDemodSettings", Json.obj [("inputFrequencyOffset", Json.num (-1500))])],
        r0Device := [("centerFrequency", Json.num 145000000)],
        t1Channel := [("SSBModSettings", Json.obj [("inputFrequencyOffset", Json.num 0)])],
        r1Device := [("centerFrequency", Json.num 145000000)] } 500).1 =
      [WriteCall.txChannelWrite
        [("SSBModSettings", Json.obj [("inputFrequencyOffset", Json.num (-1000))])]] := by
  refine ⟨fun s offset => rfl, rfl, ?_⟩
  rfl

theorem exceptionEvents_not_stillRunning (e : PyExc) :
    (exceptionEvents e).2 ≠ some ExitKind.stillRunning := by
  cases e <;> simp [exceptionEvents]

theorem main_loop_append_raised (once : Bool) (e : PyExc)
    (hend : (exceptionEvents e).2 = none) :
    ∀ pre, (main_loop once pre).2 = ExitKind.stillRunning →
      main_loop once (pre ++ [IterOutcome.raised e]) =
        ((main_loop once pre).1 ++ Event.iterate :: (exceptionEvents e).1,
         ExitKind.stillRunning) := by
  intro pre
  induction pre with
  | nil =>
      intro _h
      cases hee : exceptionEvents e with
      | mk evs k2 =>
          rw [hee] at hend
          have hk2 : k2 = none := hend
          subst hk2
          simp [main_loop, hee]
  | cons o rest ih =>
      intro h
      cases o with
      | ok =>
          cases once with
          | true =>
              simp only [main_loop] at h
              simp at h
          | false =>
              have h' : (main_loop false rest).2 = ExitKind.stillRunning := by
                simp only [main_loop] at h
                simpa using h
              have hrec := ih h'
              simp only [List.cons_append, main_loop, hrec]
              simp [hrec]
      | raised e' =>
          cases hee' : exceptionEvents e' with
          | mk evs' k2' =>
              cases k2' with
              | some kk =>
                  exfalso
                  simp only [main_loop, hee'] at h
                  have hns := exceptionEvents_not_stillRunning e'
                  rw [hee'] at hns
                  simp only [] at h hns
                  rw [h] at hns
                  exact hns rfl
              | none =>
                  have h' : (main_loop once rest).2 = ExitKind.stillRunning := by
                    simp only [main_loop, hee'] at h
                    exact h
                  have hrec := ih h'
                  simp only [List.cons_append, main_loop, hee', hrec]
                  simp [hrec]

theorem main_loop_append_ok_once :
    ∀ pre, (main_loop true pre).2 = ExitKind.stillRunning →
      main_loop true (pre ++ [IterOutcome.ok]) =
        ((main_loop true pre).1 ++ [Event.iterate], ExitKind.normalReturn) := by
  intro pre
  induction pre with
  | nil => intro _h; rfl
  | cons o rest ih =>
      intro h
      cases o with
      | ok =>
          simp only [main_loop] at h
          simp at h
      | raised e' =>
          cases hee' : exceptionEvents e' with
          | mk evs' k2' =>
              cases k2' with
              | some kk =>
                  exfalso
                  simp only [main_loop, hee'] at h
                  have hns := exceptionEvents_not_stillRunning e'
                  rw [hee'] at hns
                  simp only [] at h hns
                  rw [h] at hns
                  exact hns rfl
              | none =>
                  have h' : (main_loop true rest).2 = ExitKind.stillRunning := by
                    simp only [main_loop, hee'] at h
                    exact h
                  have hrec := ih h'
                  simp only [List.cons_append, main_loop, hee', hrec]
                  simp [hrec]

/-- C7: in continuous mode a connection failure or timeout raised by an
iteration is caught at the loop level, produces the unreachable-server log line,
is followed by the fixed reconnect backoff sleep, and the loop goes on: the run
neither propagates the error nor terminates because of it. -/
theorem c7_reconnect (pre : List IterOutcome) (e : PyExc)
    (he : e = PyExc.connectionError ∨ e = PyExc.timeoutExc)
    (hrun : (main_loop false pre).2 = ExitKind.stillRunning) :
    main_loop false (pre ++ [IterOutcome.raised e]) =
      ((main_loop false pre).1 ++
        [Event.iterate, Event.logConnError, Event.sleepReconnect],
       ExitKind.stillRunning) := by
  have hee : exceptionEvents e = ([Event.logConnError, Event.sleepReconnect], none) := by
    rcases he with rfl | rfl <;> rfl
  have hmain := main_loop_append_raised false e (by rw [hee]) pre hrun
  rw [hmain, hee]

/-- C7 witnessed on the shortest continuous-mode run: the very first iteration
raises a connection error; the loop logs, sleeps the backoff and keeps going. -/
theorem c7_witness :
    main_loop false [IterOutcome.raised PyExc.connectionError] =
      ([Event.iterate, Event.logConnError, Event.sleepReconnect],
       ExitKind.stillRunning) :=
  c7_reconnect [] PyExc.connectionError (Or.inl rfl) rfl

/-- C2 counterexample: with once set, an iteration that raises a SchemaMismatch
(KeyError) or a connection failure is still caught by the loop's except clauses,
which log and sleep and retry; the run does not end in a propagated exception,
contradicting the claim that in single-shot mode the error propagates out of
main_loop and terminates the process. -/
theorem c2_counterexample :
    main_loop true [IterOutcome.raised PyExc.keyError] =
      ([Event.iterate, Event.logOtherError, Event.sleepReconnect],
       ExitKind.stillRunning) ∧
    ExitKind.stillRunning ≠ ExitKind.propagated PyExc.keyError ∧
    main_loop true [IterOutcome.raised PyExc.connectionError] =
      ([Event.iterate, Event.logConnError, Event.sleepReconnect],
       ExitKind.stillRunning) ∧
    ExitKind.stillRunning ≠ ExitKind.propagated PyExc.connectionError := by
  refine ⟨rfl, ?_, rfl, ?_⟩ <;> decide

/-- C2 amended: in single-shot mode a connection failure or SchemaMismatch
raised by the iteration does not propagate out of main_loop; it is caught like
in continuous mode, logged, and retried after the reconnect backoff, and
main_loop returns normally only once an iteration succeeds. -/
theorem c2_amended (pre : List IterOutcome) (e : PyExc)
    (he : e = PyExc.connectionError ∨ e = PyExc.timeoutExc ∨ e = PyExc.keyError)
    (hrun : (main_loop true pre).2 = ExitKind.stillRunning) :
    main_loop true (pre ++ [IterOutcome.raised e]) =
      ((main_loop true pre).1 ++ Event.iterate :: (exceptionEvents e).1,
       ExitKind.stillRunning) ∧
    main_loop true (pre ++ [IterOutcome.ok]) =
      ((main_loop true pre).1 ++ [Event.iterate], ExitKind.normalReturn) := by
  constructor
  · refine main_loop_append_raised true e ?_ pre hrun
    rcases he with rfl | rfl | rfl <;> rfl
  · exact main_loop_append_ok_once pre hrun

/-- C2 amended, witnessed on the shortest single-shot runs: a first-iteration
KeyError is retried with log and backoff, and a first-iteration success returns
normally. -/
theorem c2_amended_witness :
    (main_loop true [IterOutcome.raised PyExc.keyError] =
      ([Event.iterate, Event.logOtherError, Event.sleepReconnect],
       ExitKind.stillRunning) ∧
     main_loop true [IterOutcome.ok] =
      ([Event.iterate], ExitKind.normalReturn)) :=
  c2_amended [] PyExc.keyError (Or.inr (Or.inr rfl)) rfl
